import Mathlib

/-!
Verification development for the AWS Lambda Web Adapter core (`src/lib.rs`).

The Rust source is shallowly embedded: pure fragments become Lean functions,
the readiness flag becomes explicit state passing, environment access becomes
a function `String → Option String`, and fallible steps return `Except`.
Machine integers (`u16`) are modelled as `Nat`; every operation involved
(comparison, inclusive ranges, list membership) is overflow-free, so no
modular reduction is required.
-/

namespace LambdaAdapter

/-! ## Character-list helpers

These model the Rust `str` primitives used by `lib.rs`: `trim`,
`split`, `contains`, and `u16::from_str`.  Strings are handled through
their underlying character lists so that the parsing functions can be
reasoned about by structural induction.
-/

/-- ASCII lowercasing of one character, modelling what Rust
`str::to_lowercase` does on the ASCII configuration strings compared in
`lib.rs` (`"true"`, `"false"`, `"http"`, `"buffered"`, …). -/
def toLowerChar (c : Char) : Char :=
  if 65 ≤ c.toNat ∧ c.toNat ≤ 90 then Char.ofNat (c.toNat + 32) else c

/-- ASCII lowercasing of a string, modelling Rust `str::to_lowercase`. -/
def toLowerStr (s : String) : String :=
  String.mk (s.data.map toLowerChar)

/-- Boolean prefix test on character lists. -/
def isPrefixOfList : List Char → List Char → Bool
  | [], _ => true
  | _ :: _, [] => false
  | a :: as, b :: bs => a = b && isPrefixOfList as bs

/-- Boolean infix (contiguous substring) test on character lists,
modelling Rust `str::contains(&str)`. -/
def isInfixOfList (needle : List Char) : List Char → Bool
  | [] => needle.isEmpty
  | c :: cs => isPrefixOfList needle (c :: cs) || isInfixOfList needle cs

/-- ASCII whitespace test, modelling Rust `char::is_whitespace` on the
ASCII range exercised by the configuration strings. -/
def isWhitespaceChar (c : Char) : Bool :=
  c.toNat = 32 || c.toNat = 9 || c.toNat = 10 || c.toNat = 13

/-- ASCII decimal-digit test, modelling the digits accepted by Rust
`u16::from_str`. -/
def isDigitChar (c : Char) : Bool :=
  48 ≤ c.toNat && c.toNat ≤ 57

/-- Model of Rust `str::trim` on the left: drop leading whitespace. -/
def trimLeftList (s : List Char) : List Char :=
  s.dropWhile isWhitespaceChar

/-- Model of Rust `str::trim`: drop leading and trailing whitespace. -/
def trimList (s : List Char) : List Char :=
  ((trimLeftList s).reverse.dropWhile isWhitespaceChar).reverse

/-- Model of Rust `str::split(sep)`: split into the (never empty) list of
chunks delimited by `sep`.  `splitOnChar sep [] = [[]]`, matching Rust where
`"".split(sep)` yields one empty chunk. -/
def splitOnChar (sep : Char) : List Char → List (List Char)
  | [] => [[]]
  | c :: cs =>
    if c = sep then
      [] :: splitOnChar sep cs
    else
      match splitOnChar sep cs with
      | [] => [[c]]
      | t :: ts => (c :: t) :: ts

/-- Value of a digit list read in base 10 (accumulator form, mirroring how
`u16::from_str` folds digits). -/
def digitsToNat (ds : List Char) : Nat :=
  ds.foldl (fun acc c => acc * 10 + (c.toNat - 48)) 0

/-- Model of Rust `str::parse::<u16>()`: an optional leading `+` sign followed
by one or more decimal digits whose value fits in `u16`.  Rust detects
overflow during accumulation; computing the exact value in `Nat` and
comparing with `65535` afterwards gives the same answer. -/
def parseU16 (s : List Char) : Option Nat :=
  let ds := if s.head? = some '+' then s.tail else s
  if ds.isEmpty then none
  else if ds.all isDigitChar then
    let n := digitsToNat ds
    if n ≤ 65535 then some n else none
  else none

/-- Model of the Rust inclusive range `(start..=end).collect::<Vec<_>>()`:
`[start, start+1, …, end]`, empty when `start > end`. -/
def rangeIncl (start stop : Nat) : List Nat :=
  (List.range (stop + 1 - start)).map (start + ·)

/-! ## `parse_status_codes` (src/lib.rs lines 312–339)

Each comma-separated token is trimmed; a token containing `-` must split
into exactly two parseable `u16` endpoints and contributes the inclusive
range, otherwise a warning is logged and nothing is contributed; a plain
token contributes its parsed value, a malformed non-empty token logs a
warning, and an empty token is silently dropped.  The second component of
each result collects the `tracing::warn!` messages the source emits.
-/

/-- Codes and warnings contributed by one comma-separated token
(the body of the `flat_map` closure in `parse_status_codes`). -/
def statusTokenResult (rawPart : List Char) : List Nat × List String :=
  let part := trimList rawPart
  if part.contains '-' then
    match splitOnChar '-' part with
    | [a, b] =>
      match parseU16 a, parseU16 b with
      | some start, some stop => (rangeIncl start stop, [])
      | _, _ => ([], ["Failed to parse status code range: " ++ String.mk part])
    | _ => ([], ["Failed to parse status code range: " ++ String.mk part])
  else
    match parseU16 part with
    | some code => ([code], [])
    | none =>
      ([], if part.isEmpty then [] else ["Failed to parse status code: " ++ String.mk part])

/-- Model of `parse_status_codes` together with the warnings it logs:
split on `,`, process each token, and concatenate in token order
(the `flat_map`/`collect` of the source). -/
def parseStatusCodesCore (input : List Char) : List Nat × List String :=
  ((splitOnChar ',' input).map statusTokenResult).foldr
    (fun p acc => (p.1 ++ acc.1, p.2 ++ acc.2)) ([], [])

/-- Model of `fn parse_status_codes(input: &str) -> Vec<u16>`. -/
def parse_status_codes (input : String) : List Nat :=
  (parseStatusCodesCore input.data).1

/-- Warnings logged by `parse_status_codes` on a given input. -/
def parseStatusCodesWarnings (input : String) : List String :=
  (parseStatusCodesCore input.data).2

/-! ## Protocol and invoke-mode enums (src/lib.rs lines 36–68) -/

/-- Model of `enum Protocol { Http, Tcp }`. -/
inductive Protocol
  | Http
  | Tcp
deriving DecidableEq, Repr

/-- Model of `impl From<&str> for Protocol`: lowercase, `"http" → Http`,
`"tcp" → Tcp`, anything else defaults to `Http`. -/
def protocolFromStr (value : String) : Protocol :=
  if toLowerStr value = "http" then Protocol.Http
  else if toLowerStr value = "tcp" then Protocol.Tcp
  else Protocol.Http

/-- Model of `enum LambdaInvokeMode { Buffered, ResponseStream }`. -/
inductive LambdaInvokeMode
  | Buffered
  | ResponseStream
deriving DecidableEq, Repr

/-- Model of `impl From<&str> for LambdaInvokeMode`: lowercase,
`"buffered" → Buffered`, `"response_stream" → ResponseStream`, anything
else defaults to `Buffered`. -/
def lambdaInvokeModeFromStr (value : String) : LambdaInvokeMode :=
  if toLowerStr value = "buffered" then LambdaInvokeMode.Buffered
  else if toLowerStr value = "response_stream" then LambdaInvokeMode.ResponseStream
  else LambdaInvokeMode.Buffered

/-! ## HTTP readiness probe (src/lib.rs lines 501–524)

`check_web_readiness` with `Protocol::Http` issues a GET; the probe outcome
is abstracted as `Option Nat`: `some s` is a response with status `s`,
`none` is a transport error (the `Err` arm of `client.get`).  The source
returns `Result<(), i8>`, embedded as `Except Int Unit`; every not-ready
outcome is `Err(-1)`.
-/

/-- Model of the `Protocol::Http` arm of `check_web_readiness`: the guard
accepts exactly when `healthcheck_min_unhealthy_status > status` and
`status ≥ 100`; every other outcome — transport error included — is
`Err(-1)`. -/
def check_web_readiness_http (minUnhealthyStatus : Nat) (outcome : Option Nat) :
    Except Int Unit :=
  match outcome with
  | some status =>
    if minUnhealthyStatus > status ∧ status ≥ 100 then Except.ok ()
    else Except.error (-1)
  | none => Except.error (-1)

/-! ## ReadinessFlag (src/lib.rs lines 471–480 and 545–550)

The `ready_at_init` atomic is modelled by explicit state passing: the
adapter performs `check_init_health` once at startup (storing the probe
result), after which each `fetch_response` call applies the conditional
lazy-probe step.  Atomic `SeqCst` loads and stores are linearized into a
sequence of atomic operations on the boolean.
-/

/-- Flag value stored by `check_init_health`: the readiness probe result
(possibly `false` when the bounded async-init probe timed out). -/
def check_init_health_store (probeResult : Bool) : Bool :=
  probeResult

/-- Effect of one `fetch_response` call on the readiness flag
(src/lib.rs lines 546–550): when `async_init` holds and the flag is still
`false`, an inline probe runs and the flag is stored `true`
unconditionally; otherwise the flag is untouched. -/
def fetch_response_flag_step (asyncInit flag : Bool) : Bool :=
  if asyncInit && !flag then true else flag

/-- Flag value after `check_init_health` stored `probeResult` and `k`
subsequent `fetch_response` calls ran. -/
def flagAfter (asyncInit probeResult : Bool) : Nat → Bool
  | 0 => check_init_health_store probeResult
  | k + 1 => fetch_response_flag_step asyncInit (flagAfter asyncInit probeResult k)

/-- Accesses `fetch_response` can make to the readiness state. -/
inductive FlagAccess
  | load (value : Bool)
  | store (value : Bool)
  | inlineProbe
deriving DecidableEq, Repr

/-- Model of the readiness prologue of `fetch_response` (src/lib.rs lines
546–550) with an explicit access trace: `self.async_init &&
!self.ready_at_init.load(..)` short-circuits, so with `async_init` false
the flag is not even loaded; otherwise the flag is loaded and, when it was
`false`, an inline probe runs and `true` is stored. -/
def fetch_response_readiness_prologue (asyncInit flag : Bool) :
    Bool × List FlagAccess :=
  if asyncInit then
    if !flag then (true, [FlagAccess.load flag, FlagAccess.inlineProbe, FlagAccess.store true])
    else (flag, [FlagAccess.load flag])
  else (flag, [])

/-! ## Base-path stripping (src/lib.rs lines 558–561)

`fetch_response` rewrites the raw path with
`path.trim_start_matches(base_path)`.  Rust `trim_start_matches` removes
*every* successive occurrence of the pattern from the front (and leaves
the string unchanged when the pattern is empty, since the empty pattern
rejects immediately).
-/

/-- Strip `pat` from the front of `s`, returning the remainder when `s`
starts with `pat`. -/
def stripPrefixList : List Char → List Char → Option (List Char)
  | [], s => some s
  | _ :: _, [] => none
  | p :: ps, c :: cs => if p = c then stripPrefixList ps cs else none

/-- Fuel-driven loop of `trimStartMatchesList`: strip the prefix while it
matches, at most `fuel` times.  Structural recursion on the fuel keeps the
function kernel-computable; a non-empty pattern shortens the string on
every successful strip, so `s.length + 1` units of fuel always reach the
fixed point. -/
def trimStartMatchesGo (pat : List Char) : Nat → List Char → List Char
  | 0, s => s
  | fuel + 1, s =>
    match stripPrefixList pat s with
    | some rest => trimStartMatchesGo pat fuel rest
    | none => s

/-- Model of Rust `str::trim_start_matches(pat)`: repeatedly strip the
prefix `pat` while it matches; with an empty pattern the string is
returned unchanged (the empty pattern rejects at once in Rust). -/
def trimStartMatchesList (pat s : List Char) : List Char :=
  if pat = [] then s else trimStartMatchesGo pat (s.length + 1) s

/-- Model of the base-path step of `fetch_response`: when a base path is
configured, the raw path is rewritten with `trim_start_matches`. -/
def stripBasePath (basePath : Option String) (path : String) : String :=
  match basePath with
  | some bp => String.mk (trimStartMatchesList bp.data path.data)
  | none => path

/-- Modelled from the spec claim (for comparison with `stripBasePath`):
remove only a single literal occurrence of the base path as a prefix,
leaving a non-matching path unchanged. -/
def stripBasePathSingleSpec (basePath : Option String) (path : String) : String :=
  match basePath with
  | some bp =>
    match stripPrefixList bp.data path.data with
    | some rest => String.mk rest
    | none => path
  | none => path

/-! ## Header map and authorization-source remap (src/lib.rs lines 581–588)

`http::HeaderMap` is modelled as an association list keyed by the (already
lowercased) header name.  The operations used by the source are
`contains_key`, `remove` (drops the key, returning its first value) and
`insert` (replaces any previous values).
-/

/-- Association-list model of `http::HeaderMap`. -/
abbrev Headers := List (String × String)

/-- Model of `HeaderMap::contains_key`. -/
def containsKey (headers : Headers) (k : String) : Bool :=
  headers.any (fun p => p.1 = k)

/-- Model of reading a header: the first value stored under `k`
(what `HeaderMap::remove` returns). -/
def headerValue (headers : Headers) (k : String) : Option String :=
  (headers.find? (fun p => p.1 = k)).map Prod.snd

/-- Model of the removal part of `HeaderMap::remove`: drop every entry
stored under `k`. -/
def removeKey (headers : Headers) (k : String) : Headers :=
  headers.filter (fun p => ¬ (p.1 = k))

/-- Model of `HeaderMap::insert`: replace any previous values of `k` with
the single value `v`. -/
def insertKey (headers : Headers) (k v : String) : Headers :=
  removeKey headers k ++ [(k, v)]

/-- Model of the authorization-source step of `fetch_response`
(src/lib.rs lines 581–588): when a source header name is configured and
present, its value is moved to the `authorization` header (the source
calls `remove(..).unwrap()` then `insert("authorization", ..)`); when
absent, the headers pass through and a warning is logged.  The result
pairs the rewritten headers with the logged warnings.  The
`headerValue = none` fallback is unreachable: `containsKey` guarantees a
value, which is why the source can `unwrap`. -/
def applyAuthorizationSource (authorizationSource : Option String) (headers : Headers) :
    Headers × List String :=
  match authorizationSource with
  | none => (headers, [])
  | some src =>
    if containsKey headers src then
      match headerValue headers src with
      | some original => (insertKey (removeKey headers src) "authorization" original, [])
      | none => (headers, [])
    else (headers, ["\"" ++ src ++ "\" header not found in request headers"])

/-! ## Error-status interception (src/lib.rs lines 614–623)

After the app response arrives, `fetch_response` consults the optional
configured list of error status codes and fails the call when the response
status is a member.
-/

/-- Model of the error-status check of `fetch_response`: `some codes`
configured and `codes.contains status` yields an error; otherwise the
status passes through. -/
def interceptErrorStatus (errorStatusCodes : Option (List Nat)) (status : Nat) :
    Except String Nat :=
  match errorStatusCodes with
  | some codes =>
    if codes.contains status then
      Except.error ("Request failed with configured error status code: " ++ toString status)
    else Except.ok status
  | none => Except.ok status

/-! ## Failure scoping (src/lib.rs lines 428–466 and 545–632)

`register_default_extension` panics (`panic!("extension registration
failure")`) when the registration response status is not `200 OK` — a
process-level abort.  Every failure on the `fetch_response` path is
returned as an `Err` value to the caller of that one request.  Both are
classified into one outcome type so the scoping contrast is statable.
-/

/-- Outcome of an operation, classified by blast radius. -/
inductive ProcessEvent
  | processAbort (msg : String)
  | requestError (msg : String)
  | requestOk (status : Nat)
  | registered
deriving DecidableEq, Repr

/-- Model of the registration check in `register_default_extension`:
`register_res.status() != StatusCode::OK` panics, aborting the process;
a `200` response proceeds to the long-poll and parks. -/
def registerExtensionOutcome (registerStatus : Nat) : ProcessEvent :=
  if registerStatus ≠ 200 then ProcessEvent.processAbort "extension registration failure"
  else ProcessEvent.registered

/-- Model of the failure classification of one `fetch_response` call: a
transport failure (`none`) or a configured error-status match becomes a
request-scoped error value; otherwise the response is returned. -/
def fetchEventOutcome (transport : Option Nat) (errorStatusCodes : Option (List Nat)) :
    ProcessEvent :=
  match transport with
  | none => ProcessEvent.requestError "connection error"
  | some status =>
    match interceptErrorStatus errorStatusCodes status with
    | Except.error e => ProcessEvent.requestError e
    | Except.ok s => ProcessEvent.requestOk s

/-! ## Invoke-mode resolution (src/lib.rs lines 72–206 and 262–276)

The process environment is modelled as a partial map from variable name to
value; `env::var(name)` is `Ok v` exactly when the map yields `some v`.
`detect_reactive_framework` consults, in source order: the explicit
reactive override, the detection kill-switch, the framework-variable
table, the profile indicators, and the streaming content types.
-/

/-- Model of the process environment. -/
abbrev Env := String → Option String

/-- Substring test modelling Rust `str::contains(&str)`. -/
def containsSubstr (haystack needle : String) : Bool :=
  isInfixOfList needle.data haystack.data

/-- Framework environment variables from `framework_categories`
(src/lib.rs lines 93–153), concatenated in source order. -/
def frameworkEnvVars : List String :=
  ["SPRING_WEBFLUX_VERSION", "REACTOR_VERSION", "VERTX_VERSION", "VERTX_HOME",
   "QUARKUS_REACTIVE", "QUARKUS_MUTINY_VERSION", "MICRONAUT_REACTOR",
   "MICRONAUT_REACTIVE", "HELIDON_REACTIVE", "AKKA_VERSION", "AKKA_HTTP_VERSION",
   "FASTAPI_VERSION", "STARLETTE_VERSION", "SANIC_VERSION", "QUART_APP",
   "QUART_ENV", "AIOHTTP_VERSION", "CHANNELS_VERSION", "PYTHON_ASYNC_APP",
   "NESTJS_VERSION", "FASTIFY_VERSION", "KOA_VERSION", "NODE_STREAMING_APP",
   "ASYNC_RUBY", "HANAMI_STREAMING",
   "REACTPHP_VERSION", "SWOOLE_VERSION", "LARAVEL_ASYNC",
   "GO_ASYNC_APP", "ECHO_VERSION",
   "ACTIX_WEB_VERSION", "ROCKET_VERSION"]

/-- Profile indicators from `profile_indicators` (src/lib.rs lines
156–162): variable name and required value substring (empty = existence
check). -/
def profileIndicators : List (String × String) :=
  [("SPRING_PROFILES_ACTIVE", "reactive"),
   ("DJANGO_SETTINGS_MODULE", "channels"),
   ("QUARKUS_VERSION", ""),
   ("MICRONAUT_VERSION", ""),
   ("LARAVEL_VERSION", "")]

/-- Streaming content types from `streaming_content_types`
(src/lib.rs line 188). -/
def streamingContentTypes : List String :=
  ["text/event-stream", "application/octet-stream", "multipart/"]

/-- Framework-category scan (src/lib.rs lines 165–173): any listed
variable being set selects streaming. -/
def detectFrameworkCategories (env : Env) : Bool :=
  frameworkEnvVars.any (fun v => (env v).isSome)

/-- Profile-indicator scan (src/lib.rs lines 176–184): empty indicator
means existence; otherwise the value must contain the indicator. -/
def detectProfileIndicators (env : Env) : Bool :=
  profileIndicators.any (fun p =>
    match env p.1 with
    | some value => p.2.isEmpty || containsSubstr value p.2
    | none => false)

/-- Streaming-content-type scan (src/lib.rs lines 187–201): enabled unless
`AWS_LWA_CHECK_CONTENT_TYPES` is set to something other than `true`
(default `"true"`); matches when the lowercased `HTTP_ACCEPT` contains a
streaming content type. -/
def detectContentTypes (env : Env) : Bool :=
  if toLowerStr ((env "AWS_LWA_CHECK_CONTENT_TYPES").getD "true") = "true" then
    match env "HTTP_ACCEPT" with
    | some contentTypes =>
      streamingContentTypes.any (fun t => containsSubstr (toLowerStr contentTypes) t)
    | none => false
  else false

/-- Detection stages after the kill-switch, in source order: framework
categories, then profile indicators, then content types. -/
def detectTables (env : Env) : Bool :=
  detectFrameworkCategories env || detectProfileIndicators env || detectContentTypes env

/-- Detection after the explicit override: `AWS_LWA_DISABLE_FRAMEWORK_DETECTION`
set to `true` returns `false` immediately (src/lib.rs lines 85–90). -/
def detectAfterOverride (env : Env) : Bool :=
  match env "AWS_LWA_DISABLE_FRAMEWORK_DETECTION" with
  | some v => if toLowerStr v = "true" then false else detectTables env
  | none => detectTables env

/-- Model of `detect_reactive_framework` (src/lib.rs lines 72–206):
`AWS_LWA_IS_REACTIVE_APPLICATION` forces the answer when it is `true` or
`false` (case-insensitively); otherwise detection proceeds. -/
def detect_reactive_framework (env : Env) : Bool :=
  match env "AWS_LWA_IS_REACTIVE_APPLICATION" with
  | some v =>
    if toLowerStr v = "true" then true
    else if toLowerStr v = "false" then false
    else detectAfterOverride env
  | none => detectAfterOverride env

/-- Model of the `invoke_mode` field of `AdapterOptions::default()`
(src/lib.rs lines 262–276): an explicit `AWS_LWA_INVOKE_MODE` is parsed
and used; otherwise framework detection chooses between streaming and
buffered. -/
def resolveInvokeMode (env : Env) : LambdaInvokeMode :=
  match env "AWS_LWA_INVOKE_MODE" with
  | some s => lambdaInvokeModeFromStr s
  | none =>
    if detect_reactive_framework env then LambdaInvokeMode.ResponseStream
    else LambdaInvokeMode.Buffered

/-- Empty environment (no variable set). -/
def envEmpty : Env := fun _ => none

/-- Environment with an explicit invoke mode and a reactive marker. -/
def envExplicitMode : Env := fun k =>
  if k = "AWS_LWA_INVOKE_MODE" then some "buffered"
  else if k = "FASTAPI_VERSION" then some "0.1" else none

/-- Environment with one reactive-framework marker set. -/
def envReactiveMarker : Env := fun k =>
  if k = "FASTAPI_VERSION" then some "0.1" else none

/-- Environment with detection disabled and a reactive marker set. -/
def envDetectionOff : Env := fun k =>
  if k = "AWS_LWA_DISABLE_FRAMEWORK_DETECTION" then some "true"
  else if k = "FASTAPI_VERSION" then some "0.1" else none

/-! ## Helper lemmas -/

theorem stripPrefixList_length {pat s rest : List Char}
    (h : stripPrefixList pat s = some rest) : rest.length + pat.length = s.length := by
  induction pat generalizing s with
  | nil =>
    simp only [stripPrefixList, Option.some.injEq] at h
    simp [h]
  | cons p ps ih =>
    cases s with
    | nil => simp [stripPrefixList] at h
    | cons c cs =>
      simp only [stripPrefixList] at h
      by_cases hpc : p = c
      · simp only [hpc, if_pos rfl] at h
        have := ih h
        simp [List.length_cons]
        omega
      · simp [hpc] at h

theorem fetch_response_flag_step_true (asyncInit : Bool) :
    fetch_response_flag_step asyncInit true = true := by
  simp [fetch_response_flag_step]

theorem flagAfter_monotone_step (asyncInit probeResult : Bool) (k : Nat)
    (h : flagAfter asyncInit probeResult k = true) :
    flagAfter asyncInit probeResult (k + 1) = true := by
  simp [flagAfter, h, fetch_response_flag_step_true]

theorem containsKey_of_headerValue {headers : Headers} {k v : String}
    (h : headerValue headers k = some v) : containsKey headers k = true := by
  unfold headerValue at h
  cases hf : headers.find? (fun p => decide (p.1 = k)) with
  | none => rw [hf] at h; simp at h
  | some p =>
    have hmem : p ∈ headers := List.mem_of_find?_eq_some hf
    have hpred := List.find?_some hf
    exact List.any_eq_true.mpr ⟨p, hmem, hpred⟩

theorem find?_removeKey_self (headers : Headers) (k : String) :
    (removeKey headers k).find? (fun p => decide (p.1 = k)) = none := by
  refine List.find?_eq_none.mpr ?_
  intro x hx
  have hmem := List.mem_filter.mp hx
  simpa using hmem.2

theorem headerValue_insertKey_self (headers : Headers) (k v : String) :
    headerValue (insertKey headers k v) k = some v := by
  unfold headerValue insertKey
  rw [List.find?_append, find?_removeKey_self]
  simp

theorem containsKey_removeKey_of_subkey {headers : Headers} {k k' : String}
    (h : containsKey (removeKey headers k') k = true) : containsKey headers k = true := by
  rcases List.any_eq_true.mp h with ⟨p, hmem, hpred⟩
  exact List.any_eq_true.mpr ⟨p, (List.mem_filter.mp hmem).1, hpred⟩

theorem containsKey_removeKey_self (headers : Headers) (k : String) :
    containsKey (removeKey headers k) k = false := by
  by_contra hcontra
  have h : containsKey (removeKey headers k) k = true := by
    cases hc : containsKey (removeKey headers k) k with
    | false => exact absurd hc hcontra
    | true => rfl
  rcases List.any_eq_true.mp h with ⟨p, hmem, hpred⟩
  have := (List.mem_filter.mp hmem).2
  simp at hpred this
  exact this hpred

theorem containsKey_insertKey_ne (headers : Headers) {k k' : String} (v : String)
    (hne : k' ≠ k) : containsKey (insertKey headers k v) k' = containsKey (removeKey headers k) k' := by
  unfold insertKey containsKey
  rw [List.any_append]
  have : [(k, v)].any (fun p => decide (p.1 = k')) = false := by
    simp [Ne.symm hne]
  rw [this]
  simp [containsKey]

theorem splitOnChar_cons (sep c : Char) (cs : List Char) :
    splitOnChar sep (c :: cs) =
      if c = sep then [] :: splitOnChar sep cs
      else match splitOnChar sep cs with
        | [] => [[c]]
        | t :: ts => (c :: t) :: ts := rfl

theorem splitOnChar_ne_nil (sep : Char) : ∀ xs : List Char, splitOnChar sep xs ≠ []
  | [] => by simp [splitOnChar]
  | c :: cs => by
    unfold splitOnChar
    by_cases h : c = sep
    · simp [h]
    · rw [if_neg h]
      cases hs : splitOnChar sep cs <;> simp

theorem splitOnChar_append_sep (sep : Char) (xs ys : List Char) :
    splitOnChar sep (xs ++ sep :: ys) = splitOnChar sep xs ++ splitOnChar sep ys := by
  induction xs with
  | nil => simp [splitOnChar]
  | cons c cs ih =>
    rw [List.cons_append, splitOnChar_cons, splitOnChar_cons]
    by_cases h : c = sep
    · rw [if_pos h, if_pos h, ih, List.cons_append]
    · rw [if_neg h, if_neg h, ih]
      cases hs : splitOnChar sep cs with
      | nil => exact absurd hs (splitOnChar_ne_nil sep cs)
      | cons t ts => simp

theorem splitOnChar_eq_single {sep : Char} {xs : List Char} (h : ∀ c ∈ xs, c ≠ sep) :
    splitOnChar sep xs = [xs] := by
  induction xs with
  | nil => rfl
  | cons c cs ih =>
    unfold splitOnChar
    rw [if_neg (h c (by simp))]
    rw [ih (fun d hd => h d (by simp [hd]))]

theorem dropWhile_eq_self_of_all_false {p : Char → Bool} {s : List Char}
    (h : ∀ c ∈ s, p c = false) : s.dropWhile p = s := by
  cases s with
  | nil => rfl
  | cons c cs => simp [List.dropWhile_cons, h c (by simp)]

theorem trimList_eq_self {s : List Char} (h : ∀ c ∈ s, isWhitespaceChar c = false) :
    trimList s = s := by
  unfold trimList trimLeftList
  rw [dropWhile_eq_self_of_all_false h]
  rw [dropWhile_eq_self_of_all_false (fun c hc => h c (List.mem_reverse.mp hc))]
  exact List.reverse_reverse s

theorem parseU16_chars {s : List Char} {n : Nat} (h : parseU16 s = some n) :
    ∀ c ∈ s, c = '+' ∨ isDigitChar c = true := by
  unfold parseU16 at h
  by_cases hh : s.head? = some '+'
  · rw [if_pos hh] at h
    cases s with
    | nil => simp at hh
    | cons c0 cs =>
      have hc0 : c0 = '+' := by simpa using hh
      intro c hc
      rcases List.mem_cons.mp hc with rfl | hc
      · exact Or.inl hc0
      · by_cases he : cs.isEmpty
        · rw [List.tail_cons, if_pos he] at h
          exact absurd h (by simp)
        · rw [List.tail_cons, if_neg he] at h
          by_cases hall : cs.all isDigitChar
          · exact Or.inr ((List.all_eq_true.mp hall) c hc)
          · rw [if_neg hall] at h
            exact absurd h (by simp)
  · rw [if_neg hh] at h
    intro c hc
    by_cases he : s.isEmpty
    · rw [if_pos he] at h
      exact absurd h (by simp)
    · rw [if_neg he] at h
      by_cases hall : s.all isDigitChar
      · exact Or.inr ((List.all_eq_true.mp hall) c hc)
      · rw [if_neg hall] at h
        exact absurd h (by simp)

theorem parseU16_chars_safe {s : List Char} {n : Nat} (h : parseU16 s = some n) :
    ∀ c ∈ s, isWhitespaceChar c = false ∧ c ≠ '-' := by
  intro c hc
  rcases parseU16_chars h c hc with rfl | hd
  · exact ⟨by decide, by decide⟩
  · unfold isDigitChar at hd
    simp only [Bool.and_eq_true, decide_eq_true_eq] at hd
    constructor
    · unfold isWhitespaceChar
      simp only [Bool.or_eq_false_iff, decide_eq_false_iff_not]
      omega
    · intro hcontra
      subst hcontra
      exact absurd hd (by decide)

theorem statusFoldAcc (l : List (List Nat × List String)) (acc : List Nat × List String) :
    l.foldr (fun p a => (p.1 ++ a.1, p.2 ++ a.2)) acc =
      ((l.foldr (fun p a => (p.1 ++ a.1, p.2 ++ a.2)) ([], [])).1 ++ acc.1,
       (l.foldr (fun p a => (p.1 ++ a.1, p.2 ++ a.2)) ([], [])).2 ++ acc.2) := by
  induction l with
  | nil => simp
  | cons h t ih => simp [ih]

theorem parseStatusCodesCore_append (xs ys : List Char) :
    parseStatusCodesCore (xs ++ ',' :: ys) =
      ((parseStatusCodesCore xs).1 ++ (parseStatusCodesCore ys).1,
       (parseStatusCodesCore xs).2 ++ (parseStatusCodesCore ys).2) := by
  unfold parseStatusCodesCore
  rw [splitOnChar_append_sep, List.map_append, List.foldr_append, statusFoldAcc]

theorem stripPrefixList_append (pat rest : List Char) :
    stripPrefixList pat (pat ++ rest) = some rest := by
  induction pat with
  | nil => rfl
  | cons p ps ih => simp [stripPrefixList, ih]

theorem stripPrefixList_eq_none {pat s : List Char} (h : isPrefixOfList pat s = false) :
    stripPrefixList pat s = none := by
  induction pat generalizing s with
  | nil => simp [isPrefixOfList] at h
  | cons p ps ih =>
    cases s with
    | nil => rfl
    | cons c cs =>
      simp only [isPrefixOfList, Bool.and_eq_false_iff, decide_eq_false_iff_not] at h
      unfold stripPrefixList
      by_cases hpc : p = c
      · rw [if_pos hpc]
        rcases h with h | h
        · exact absurd hpc h
        · exact ih h
      · rw [if_neg hpc]

theorem trimStartMatchesGo_fuel {pat : List Char} (hpat : pat ≠ []) :
    ∀ (fuel₁ fuel₂ : Nat) (s : List Char), s.length < fuel₁ → s.length < fuel₂ →
      trimStartMatchesGo pat fuel₁ s = trimStartMatchesGo pat fuel₂ s := by
  intro fuel₁
  induction fuel₁ with
  | zero =>
    intro fuel₂ s h1 h2
    omega
  | succ f ih =>
    intro fuel₂ s h1 h2
    cases fuel₂ with
    | zero => omega
    | succ g =>
      unfold trimStartMatchesGo
      cases hs : stripPrefixList pat s with
      | none => rfl
      | some rest =>
        have hlen := stripPrefixList_length hs
        have hplen : 0 < pat.length := List.length_pos.mpr hpat
        exact ih g rest (by omega) (by omega)

theorem trimStartMatchesList_no_match {pat s : List Char} (h : isPrefixOfList pat s = false) :
    trimStartMatchesList pat s = s := by
  have hpat : pat ≠ [] := by
    intro he
    subst he
    simp [isPrefixOfList] at h
  unfold trimStartMatchesList
  rw [if_neg hpat]
  unfold trimStartMatchesGo
  rw [stripPrefixList_eq_none h]

theorem trimStartMatchesGo_succ (pat : List Char) (fuel : Nat) (s : List Char) :
    trimStartMatchesGo pat (fuel + 1) s =
      match stripPrefixList pat s with
      | some rest => trimStartMatchesGo pat fuel rest
      | none => s := rfl

theorem trimStartMatchesList_strip_head {pat rest : List Char} (hpat : pat ≠ []) :
    trimStartMatchesList pat (pat ++ rest) = trimStartMatchesList pat rest := by
  unfold trimStartMatchesList
  rw [if_neg hpat, if_neg hpat]
  have hstep : trimStartMatchesGo pat ((pat ++ rest).length + 1) (pat ++ rest)
      = trimStartMatchesGo pat (pat ++ rest).length rest := by
    rw [trimStartMatchesGo_succ, stripPrefixList_append]
  rw [hstep]
  have hplen : 0 < pat.length := List.length_pos.mpr hpat
  exact trimStartMatchesGo_fuel hpat (pat ++ rest).length (rest.length + 1) rest
    (by simp [List.length_append]; omega) (by omega)

/-! ## Claim theorems -/

/-- C1: for every threshold `T` and HTTP probe outcome, the HTTP readiness
probe reports ready iff the response status `S` satisfies `100 ≤ S < T`;
any transport error or out-of-range status yields `Err(-1)` — a not-ready
signal, never a request error. -/
theorem http_readiness_probe_iff (minUnhealthyStatus : Nat) (outcome : Option Nat) :
    (check_web_readiness_http minUnhealthyStatus outcome = Except.ok () ↔
      ∃ s, outcome = some s ∧ 100 ≤ s ∧ s < minUnhealthyStatus) ∧
    (check_web_readiness_http minUnhealthyStatus outcome = Except.ok () ∨
      check_web_readiness_http minUnhealthyStatus outcome = Except.error (-1)) := by
  cases outcome with
  | none => simp [check_web_readiness_http]
  | some s =>
    by_cases h : minUnhealthyStatus > s ∧ s ≥ 100
    · have hred : check_web_readiness_http minUnhealthyStatus (some s) = Except.ok () := by
        simp [check_web_readiness_http, h]
      rw [hred]
      exact ⟨⟨fun _ => ⟨s, rfl, h.2, h.1⟩, fun _ => rfl⟩, Or.inl rfl⟩
    · have hred : check_web_readiness_http minUnhealthyStatus (some s) = Except.error (-1) := by
        simp [check_web_readiness_http, h]
      rw [hred]
      refine ⟨⟨fun hc => absurd hc (by simp), ?_⟩, Or.inr rfl⟩
      rintro ⟨t, ht, h100, hlt⟩
      injection ht with ht
      subst ht
      exact absurd ⟨hlt, h100⟩ h

/-- C4: the translation call fails iff a configured list of error status
codes contains the response status; an empty configured list or no
configured list never intercepts, and the response passes through. -/
theorem error_status_interception (errorStatusCodes : Option (List Nat)) (status : Nat) :
    ((∃ msg, interceptErrorStatus errorStatusCodes status = Except.error msg) ↔
      ∃ codes, errorStatusCodes = some codes ∧ status ∈ codes) ∧
    interceptErrorStatus (some []) status = Except.ok status ∧
    interceptErrorStatus none status = Except.ok status := by
  refine ⟨?_, by simp [interceptErrorStatus], rfl⟩
  cases errorStatusCodes with
  | none => simp [interceptErrorStatus]
  | some codes =>
    by_cases h : codes.contains status
    · simp only [interceptErrorStatus, if_pos h]
      exact ⟨fun _ => ⟨codes, rfl, by simpa using h⟩, fun _ => ⟨_, rfl⟩⟩
    · simp only [interceptErrorStatus, if_neg h]
      constructor
      · rintro ⟨msg, hmsg⟩
        exact absurd hmsg (by simp)
      · rintro ⟨cs, hcs, hmem⟩
        cases Option.some.injEq .. ▸ hcs
        exact absurd hmem (by simpa using h)

/-- C6: the readiness flag is monotonic across a startup `check_init_health`
followed by any number of `fetch_response` calls: once it holds `true`
after `i` calls, it still holds `true` after any `j ≥ i` calls, so a
reader that observed `true` never subsequently observes `false`. -/
theorem readiness_flag_monotonic (asyncInit probeResult : Bool) (i j : Nat)
    (hij : i ≤ j) (hi : flagAfter asyncInit probeResult i = true) :
    flagAfter asyncInit probeResult j = true := by
  induction j with
  | zero =>
    have : i = 0 := Nat.le_zero.mp hij
    exact this ▸ hi
  | succ k ih =>
    by_cases h : i ≤ k
    · exact flagAfter_monotone_step asyncInit probeResult k (ih h)
    · have : i = k + 1 := by omega
      exact this ▸ hi

/-- C6 witness. -/
theorem readiness_flag_monotonic_witness :
    1 ≤ 3 ∧ flagAfter true false 1 = true ∧ flagAfter true false 3 = true :=
  ⟨by decide, by decide, readiness_flag_monotonic true false 1 3 (by decide) (by decide)⟩

/-- C10: with async-init disabled, the readiness prologue of
`fetch_response` performs no probe and neither loads nor stores the flag
(the `&&` short-circuits), whatever the flag value; consequently any
number of `fetch_response` calls leaves the flag exactly as
`check_init_health` stored it. -/
theorem async_init_disabled_no_flag_access (flag probeResult : Bool) (k : Nat) :
    fetch_response_readiness_prologue false flag = (flag, []) ∧
    flagAfter false probeResult k = probeResult := by
  refine ⟨by simp [fetch_response_readiness_prologue], ?_⟩
  induction k with
  | zero => rfl
  | succ n ih => simp [flagAfter, ih, fetch_response_flag_step]

/-- C7: a lifecycle-registration response without a success status aborts
the whole process, while every `fetch_response` failure — transport or
configured error status — is returned as a request-scoped error, never a
process abort. -/
theorem registration_fatal_requests_scoped :
    (∀ s : Nat, ¬ (200 ≤ s ∧ s ≤ 299) →
      registerExtensionOutcome s = ProcessEvent.processAbort "extension registration failure") ∧
    (∀ (transport : Option Nat) (errorStatusCodes : Option (List Nat)) (msg : String),
      fetchEventOutcome transport errorStatusCodes ≠ ProcessEvent.processAbort msg) := by
  constructor
  · intro s hs
    have : s ≠ 200 := by omega
    simp [registerExtensionOutcome, this]
  · intro transport errorStatusCodes msg
    cases transport with
    | none => simp [fetchEventOutcome]
    | some status =>
      simp only [fetchEventOutcome]
      cases h : interceptErrorStatus errorStatusCodes status <;> simp

/-- C8: an explicitly configured invoke mode is always used regardless of
environment markers; with no explicit setting and the heuristic not
overridden, any known reactive-framework marker selects streaming; with no
explicit setting and nothing detected, buffered is selected; and setting
the kill-switch disables the marker heuristic entirely. -/
theorem invoke_mode_resolution :
    (∀ (env : Env) (s : String), env "AWS_LWA_INVOKE_MODE" = some s →
      resolveInvokeMode env = lambdaInvokeModeFromStr s) ∧
    (∀ env : Env, env "AWS_LWA_INVOKE_MODE" = none →
      env "AWS_LWA_IS_REACTIVE_APPLICATION" = none →
      env "AWS_LWA_DISABLE_FRAMEWORK_DETECTION" = none →
      (∃ v ∈ frameworkEnvVars, (env v).isSome) →
      resolveInvokeMode env = LambdaInvokeMode.ResponseStream) ∧
    (∀ env : Env, env "AWS_LWA_INVOKE_MODE" = none →
      env "AWS_LWA_IS_REACTIVE_APPLICATION" = none →
      detectTables env = false →
      resolveInvokeMode env = LambdaInvokeMode.Buffered) ∧
    (∀ env : Env, env "AWS_LWA_INVOKE_MODE" = none →
      env "AWS_LWA_IS_REACTIVE_APPLICATION" = none →
      env "AWS_LWA_DISABLE_FRAMEWORK_DETECTION" = some "true" →
      resolveInvokeMode env = LambdaInvokeMode.Buffered) := by
  refine ⟨?_, ?_, ?_, ?_⟩
  · intro env s hmode
    unfold resolveInvokeMode
    rw [hmode]
  · rintro env hmode hreact hdisable ⟨v, hvmem, hvsome⟩
    unfold resolveInvokeMode
    rw [hmode]
    have hcat : detectFrameworkCategories env = true := by
      unfold detectFrameworkCategories
      exact List.any_eq_true.mpr ⟨v, hvmem, hvsome⟩
    have hdet : detect_reactive_framework env = true := by
      unfold detect_reactive_framework
      rw [hreact]
      unfold detectAfterOverride
      rw [hdisable]
      unfold detectTables
      simp [hcat]
    simp [hdet]
  · intro env hmode hreact htables
    unfold resolveInvokeMode
    rw [hmode]
    have hdet : detect_reactive_framework env = false := by
      unfold detect_reactive_framework
      rw [hreact]
      unfold detectAfterOverride
      cases hd : env "AWS_LWA_DISABLE_FRAMEWORK_DETECTION" with
      | none => exact htables
      | some v => by_cases hv : toLowerStr v = "true" <;> simp [hv, htables]
    simp [hdet]
  · intro env hmode hreact hdisable
    unfold resolveInvokeMode
    rw [hmode]
    have hdet : detect_reactive_framework env = false := by
      unfold detect_reactive_framework
      rw [hreact]
      unfold detectAfterOverride
      rw [hdisable]
      have htrue : toLowerStr "true" = "true" := by decide
      simp [htrue]
    simp [hdet]

/-- C8 witness. -/
theorem invoke_mode_resolution_witness :
    resolveInvokeMode envExplicitMode = lambdaInvokeModeFromStr "buffered" ∧
    resolveInvokeMode envReactiveMarker = LambdaInvokeMode.ResponseStream ∧
    resolveInvokeMode envEmpty = LambdaInvokeMode.Buffered ∧
    resolveInvokeMode envDetectionOff = LambdaInvokeMode.Buffered :=
  ⟨invoke_mode_resolution.1 envExplicitMode "buffered" (by decide),
   invoke_mode_resolution.2.1 envReactiveMarker (by decide) (by decide) (by decide)
     ⟨"FASTAPI_VERSION", by decide, by decide⟩,
   invoke_mode_resolution.2.2.1 envEmpty (by decide) (by decide) (by decide),
   invoke_mode_resolution.2.2.2 envDetectionOff (by decide) (by decide) (by decide)⟩

/-- C3 counterexample: with base path `/app` and raw path `/app/app/x`,
the code (modelled by `stripBasePath`, Rust `trim_start_matches`) yields
`/x`, while removing only a single literal occurrence (the claim, modelled
by `stripBasePathSingleSpec`) would yield `/app/app/x` stripped once,
`/app/x`; the two disagree. -/
theorem base_path_single_strip_counterexample :
    stripBasePath (some "/app") "/app/app/x" = "/x" ∧
    stripBasePathSingleSpec (some "/app") "/app/app/x" = "/app/x" ∧
    stripBasePath (some "/app") "/app/app/x" ≠
      stripBasePathSingleSpec (some "/app") "/app/app/x" := by
  refine ⟨by decide, by decide, by decide⟩

/-- C3 (amended): the translation step removes every successive leading
literal occurrence of the base path (Rust `trim_start_matches` semantics,
not path-segment aware), and a path that does not start with the base path
passes through unchanged. -/
theorem base_path_strip_repeated :
    (∀ basePath path : String, isPrefixOfList basePath.data path.data = false →
      stripBasePath (some basePath) path = path) ∧
    (∀ basePath rest : String, basePath.data ≠ [] →
      stripBasePath (some basePath) (String.mk (basePath.data ++ rest.data)) =
        String.mk (trimStartMatchesList basePath.data rest.data)) := by
  constructor
  · intro basePath path h
    simp only [stripBasePath]
    rw [trimStartMatchesList_no_match h]
  · intro basePath rest h
    simp only [stripBasePath]
    rw [trimStartMatchesList_strip_head h]

/-- C3 witness. -/
theorem base_path_strip_repeated_witness :
    stripBasePath (some "/api") "/xyz" = "/xyz" ∧
    stripBasePath (some "/app") (String.mk ("/app".data ++ "/app/x".data)) =
      String.mk (trimStartMatchesList "/app".data "/app/x".data) :=
  ⟨base_path_strip_repeated.1 "/api" "/xyz" (by decide),
   base_path_strip_repeated.2 "/app" "/app/x" (by decide)⟩

/-- C2: `parse_status_codes` expands comma-separated tokens and two-ended
ranges in token order, ignores whitespace around tokens, drops malformed
tokens while keeping well-formed ones, and returns `[]` on empty or
all-malformed input.  The final conjunct is the per-token compositionality
that makes token order and independent dropping hold on every input. -/
theorem parse_status_codes_spec :
    parse_status_codes "500,502-504,422" = [500, 502, 503, 504, 422] ∧
    parse_status_codes " 500 ,\t502-504 , 422 " = [500, 502, 503, 504, 422] ∧
    parse_status_codes "" = [] ∧
    parse_status_codes "invalid" = [] ∧
    parse_status_codes "invalid, 500-invalid ,xyz" = [] ∧
    parse_status_codes "500,bad,42x,422" = [500, 422] ∧
    (∀ xs ys : List Char, parseStatusCodesCore (xs ++ ',' :: ys) =
      ((parseStatusCodesCore xs).1 ++ (parseStatusCodesCore ys).1,
       (parseStatusCodesCore xs).2 ++ (parseStatusCodesCore ys).2)) :=
  ⟨by decide, by decide, by decide, by decide, by decide, by decide,
   parseStatusCodesCore_append⟩

/-- C9: a range token whose start exceeds its end contributes no codes and
logs no warning (the empty inclusive range is returned silently), unlike a
malformed range token, which logs a range warning; other tokens in the
same input are still applied. -/
theorem inverted_range_silent :
    (∀ (sa sb : List Char) (a b : Nat), parseU16 sa = some a → parseU16 sb = some b →
      b < a → statusTokenResult (sa ++ '-' :: sb) = ([], [])) ∧
    statusTokenResult "504-x".data = ([], ["Failed to parse status code range: 504-x"]) ∧
    parseStatusCodesCore "500,504-502,422".data = ([500, 422], []) := by
  refine ⟨?_, by decide, by decide⟩
  intro sa sb a b ha hb hba
  have hsafe_a := parseU16_chars_safe ha
  have hsafe_b := parseU16_chars_safe hb
  have hnws : ∀ c ∈ sa ++ '-' :: sb, isWhitespaceChar c = false := by
    intro c hc
    rcases List.mem_append.mp hc with hc | hc
    · exact (hsafe_a c hc).1
    · rcases List.mem_cons.mp hc with rfl | hc
      · decide
      · exact (hsafe_b c hc).1
  have hmem : '-' ∈ sa ++ '-' :: sb := by simp
  have hsplit : splitOnChar '-' (sa ++ '-' :: sb) = [sa, sb] := by
    rw [splitOnChar_append_sep]
    rw [splitOnChar_eq_single (fun c hc => (hsafe_a c hc).2)]
    rw [splitOnChar_eq_single (fun c hc => (hsafe_b c hc).2)]
    rfl
  have hrange : rangeIncl a b = [] := by
    unfold rangeIncl
    have hz : b + 1 - a = 0 := by omega
    rw [hz]
    rfl
  simp only [statusTokenResult]
  rw [trimList_eq_self hnws]
  rw [if_pos (by simp [List.contains]), hsplit]
  simp only [ha, hb, hrange]

/-- C9 witness. -/
theorem inverted_range_silent_witness :
    statusTokenResult ("504".data ++ '-' :: "502".data) = ([], []) :=
  inverted_range_silent.1 "504".data "502".data 504 502 (by decide) (by decide) (by decide)

/-- C5: with an alternate authorization-source header `src` configured and
present with value `v`, the outbound header set holds `v` under
`authorization` (overwriting any previous value), no longer contains
`src`, and no warning is logged; with `src` absent, the header set passes
through unmodified and the warning is logged. -/
theorem authorization_source_remap :
    (∀ (src v : String) (headers : Headers), src ≠ "authorization" →
      headerValue headers src = some v →
      headerValue (applyAuthorizationSource (some src) headers).1 "authorization" = some v ∧
      containsKey (applyAuthorizationSource (some src) headers).1 src = false ∧
      (applyAuthorizationSource (some src) headers).2 = []) ∧
    (∀ (src : String) (headers : Headers), containsKey headers src = false →
      applyAuthorizationSource (some src) headers =
        (headers, ["\"" ++ src ++ "\" header not found in request headers"])) := by
  constructor
  · intro src v headers hsrc hv
    have hck : containsKey headers src = true := containsKey_of_headerValue hv
    have happ : applyAuthorizationSource (some src) headers =
        (insertKey (removeKey headers src) "authorization" v, []) := by
      simp [applyAuthorizationSource, hck, hv]
    rw [happ]
    refine ⟨headerValue_insertKey_self _ _ _, ?_, rfl⟩
    rw [containsKey_insertKey_ne (removeKey headers src) v hsrc]
    cases hc : containsKey (removeKey (removeKey headers src) "authorization") src with
    | false => rfl
    | true =>
      have h1 := containsKey_removeKey_of_subkey hc
      rw [containsKey_removeKey_self] at h1
      exact absurd h1 (by simp)
  · intro src headers hck
    simp [applyAuthorizationSource, hck]

/-- C5 witness. -/
theorem authorization_source_remap_witness :
    headerValue (applyAuthorizationSource (some "x-auth") [("x-auth", "tok"), ("a", "b")]).1
        "authorization" = some "tok" ∧
    containsKey (applyAuthorizationSource (some "x-auth") [("x-auth", "tok"), ("a", "b")]).1
        "x-auth" = false ∧
    (applyAuthorizationSource (some "x-auth") [("x-auth", "tok"), ("a", "b")]).2 = [] ∧
    applyAuthorizationSource (some "x-auth") [("a", "b")] =
      ([("a", "b")], ["\"x-auth\" header not found in request headers"]) :=
  ⟨(authorization_source_remap.1 "x-auth" "tok" [("x-auth", "tok"), ("a", "b")]
      (by decide) (by decide)).1,
   (authorization_source_remap.1 "x-auth" "tok" [("x-auth", "tok"), ("a", "b")]
      (by decide) (by decide)).2.1,
   (authorization_source_remap.1 "x-auth" "tok" [("x-auth", "tok"), ("a", "b")]
      (by decide) (by decide)).2.2,
   authorization_source_remap.2 "x-auth" [("a", "b")] (by decide)⟩

/-- C7 witness. -/
theorem registration_fatal_requests_scoped_witness :
    registerExtensionOutcome 500 = ProcessEvent.processAbort "extension registration failure" ∧
    fetchEventOutcome (some 500) (some [500]) ≠ ProcessEvent.processAbort "x" :=
  ⟨registration_fatal_requests_scoped.1 500 (by decide),
   registration_fatal_requests_scoped.2 (some 500) (some [500]) "x"⟩

end LambdaAdapter
